import Mathlib

/-!
Verification of the load-balancer simulator (`src/load_balancer_simulator.cc`).

The C++ code is shallowly embedded below.  C++ `int` values that can only be
incremented and start at zero (latencies, counters of requests) are embedded as
`Nat` where they never overflow in the claims' scope; quantities that are
decremented (remaining service time, outstanding-request counters) are `Int`.
The three parallel deques `service_timers`, `request_sources`, `latencies` of
`UpstreamServer` are always pushed and popped together, so they are embedded as
one list of `Request` records.  Undefined behaviour (out-of-range indexing,
division by zero, dereferencing a null policy) is made explicit through
`Option`: a `none` result marks the executions on which the C++ program has no
defined result.  `rand()` is modelled as an explicit stream of drawn values.
-/

namespace LBSim

/-! ## Definitions: shallow embedding of the source -/



/-- `constexpr int concurrency = 6;` -/
def concurrency : Nat := 6

/-- One in-flight request: one slot of the parallel deques
`service_timers` / `request_sources` / `latencies`. -/
structure Request where
  remaining : Int
  source : Nat
  latency : Nat
deriving DecidableEq

/-- One slot of the global completion buffers
`response_latency` / `request_proxy` / `response_server`. -/
structure Completion where
  source : Nat
  serverId : Nat
  latency : Nat
deriving DecidableEq

/-- `struct UpstreamServer` (its constructor sets `service_time = 100`). -/
structure UpstreamServer where
  serverId : Nat
  serviceTime : Int
  queue : List Request
deriving DecidableEq

/-- `UpstreamServer(int server_id_)`: empty queue, `service_time = 100`. -/
def UpstreamServer.mk0 (server_id : Nat) : UpstreamServer :=
  { serverId := server_id, serviceTime := 100, queue := [] }

/-- `UpstreamServer::onReceiveRequest`: push service time, source, latency 0. -/
def UpstreamServer.onReceiveRequest (s : UpstreamServer) (source : Nat) : UpstreamServer :=
  { s with queue := s.queue ++ [{ remaining := s.serviceTime, source := source, latency := 0 }] }

/-- `for (int& latency : latencies) latency++;` -/
def incLatencies (q : List Request) : List Request :=
  q.map fun r => { r with latency := r.latency + 1 }

/-- `for (int i = 0; i < service_timers.size() && i < concurrency; i++) service_timers[i]--;` -/
def decWindow (q : List Request) : List Request :=
  ((q.take concurrency).map fun r => { r with remaining := r.remaining - 1 }) ++ q.drop concurrency

/-- The pop loop of `UpstreamServer::processRequest`:
`while (!service_timers.empty() && service_timers.front() == 0) { pop and emit }`. -/
def drain (server_id : Nat) : List Request → List Request × List Completion
  | [] => ([], [])
  | r :: rs =>
    if r.remaining = 0 then
      ((drain server_id rs).1,
       { source := r.source, serverId := server_id, latency := r.latency } :: (drain server_id rs).2)
    else (r :: rs, [])

/-- `UpstreamServer::processRequest`: increment latencies, decrement the first
`min(concurrency, size)` timers, then pop completed requests from the front. -/
def UpstreamServer.processRequest (s : UpstreamServer) : UpstreamServer × List Completion :=
  ({ s with queue := (drain s.serverId (decWindow (incLatencies s.queue))).1 },
   (drain s.serverId (decWindow (incLatencies s.queue))).2)

/-- `UpstreamServer::activeRequests`: `service_timers.size()`. -/
def UpstreamServer.activeRequests (s : UpstreamServer) : Nat := s.queue.length

structure GRequest where
  remaining : Int
  source : Nat
  latency : Nat
  outWindow : Nat
deriving DecidableEq

structure GCompletion where
  source : Nat
  serverId : Nat
  latency : Nat
  outWindow : Nat
deriving DecidableEq

structure GServer where
  serverId : Nat
  serviceTime : Int
  queue : List GRequest
deriving DecidableEq

def GRequest.erase (r : GRequest) : Request :=
  { remaining := r.remaining, source := r.source, latency := r.latency }

def GCompletion.erase (c : GCompletion) : Completion :=
  { source := c.source, serverId := c.serverId, latency := c.latency }

def GServer.erase (s : GServer) : UpstreamServer :=
  { serverId := s.serverId, serviceTime := s.serviceTime, queue := s.queue.map GRequest.erase }

def GServer.mk0 (server_id : Nat) : GServer :=
  { serverId := server_id, serviceTime := 100, queue := [] }

def GServer.onReceiveRequest (s : GServer) (source : Nat) : GServer :=
  { s with queue := s.queue ++
      [{ remaining := s.serviceTime, source := source, latency := 0, outWindow := 0 }] }

/-- The two mutation loops of one tick, instrumented: requests in the window
get their timer decremented, requests outside it get `outWindow` incremented. -/
def gStep (q : List GRequest) : List GRequest :=
  ((q.take concurrency).map fun r => { r with latency := r.latency + 1, remaining := r.remaining - 1 })
  ++ ((q.drop concurrency).map fun r => { r with latency := r.latency + 1, outWindow := r.outWindow + 1 })

def gDrain (server_id : Nat) : List GRequest → List GRequest × List GCompletion
  | [] => ([], [])
  | r :: rs =>
    if r.remaining = 0 then
      ((gDrain server_id rs).1,
       { source := r.source, serverId := server_id, latency := r.latency,
         outWindow := r.outWindow } :: (gDrain server_id rs).2)
    else (r :: rs, [])

def GServer.processRequest (s : GServer) : GServer × List GCompletion :=
  ({ s with queue := (gDrain s.serverId (gStep s.queue)).1 },
   (gDrain s.serverId (gStep s.queue)).2)

/-- Events of a single-server history: an enqueue or one processing tick. -/
inductive SEvent where
  | enq (source : Nat)
  | tick
deriving DecidableEq

def UpstreamServer.applyEvent (s : UpstreamServer) : SEvent → UpstreamServer
  | .enq source => s.onReceiveRequest source
  | .tick => s.processRequest.1

def UpstreamServer.runEvents (server_id : Nat) (tr : List SEvent) : UpstreamServer :=
  tr.foldl UpstreamServer.applyEvent (UpstreamServer.mk0 server_id)

def GServer.applyEvent (s : GServer) : SEvent → GServer
  | .enq source => s.onReceiveRequest source
  | .tick => s.processRequest.1

def GServer.runEvents (server_id : Nat) (tr : List SEvent) : GServer :=
  tr.foldl GServer.applyEvent (GServer.mk0 server_id)

/-- The per-request accounting invariant: latency plus remaining service always
equals the fixed service time plus the ticks spent outside the window. -/
def GReqInv (r : GRequest) : Prop :=
  (r.latency : Int) + r.remaining = 100 + (r.outWindow : Int)

def GInv (s : GServer) : Prop :=
  s.serviceTime = 100 ∧ ∀ r ∈ s.queue, GReqInv r

/-- The stream of values produced by successive `rand()` calls (0 once the
modelled entropy is exhausted). -/
abbrev Rng := List Nat

def Rng.next (g : Rng) : Nat × Rng :=
  match g with
  | [] => (0, [])
  | v :: vs => (v, vs)

/-- The three `LoadBalancer` subclasses.  `RoundRobin` holds `cur_idx = 0`. -/
inductive LBPolicy where
  | roundRobin (cur_idx : Nat)
  | randomSelect
  | leastRequests
deriving DecidableEq

/-- `struct LoadBalancer`: the policy-specific state plus the per-server
outstanding-request counters `active_requests`. -/
structure LoadBalancer where
  policy : LBPolicy
  active_requests : List Int
deriving DecidableEq

/-- `active_requests[i]++` (`LoadBalancer::onSendRequest`). -/
def listInc (l : List Int) (i : Nat) : List Int := l.set i (l.getD i 0 + 1)

/-- `active_requests[i]--` (`LoadBalancer::onReceiveResponse`). -/
def listDec (l : List Int) (i : Nat) : List Int := l.set i (l.getD i 0 - 1)

def LoadBalancer.onSendRequest (lb : LoadBalancer) (upstream_server : Nat) : LoadBalancer :=
  { lb with active_requests := listInc lb.active_requests upstream_server }

def LoadBalancer.onReceiveResponse (lb : LoadBalancer) (upstream_server : Nat) : LoadBalancer :=
  { lb with active_requests := listDec lb.active_requests upstream_server }

/-- `RoundRobin::selectUpstreamServer`: `cur_idx++; cur_idx %= num_servers; return cur_idx;` -/
def RoundRobin.step (cur_idx num_servers : Nat) : Nat := (cur_idx + 1) % num_servers

/-- The comparison in `LeastRequests::selectUpstreamServer`:
`active_requests[server1] < active_requests[server2] ? server1 : server2`. -/
def LeastRequests.choose (active : List Int) (server1 server2 : Nat) : Nat :=
  if active.getD server1 0 < active.getD server2 0 then server1 else server2

/-- The rejection loop `while (server2 == server1) server2 = rand() % num_servers;`,
with explicit fuel (`none` models non-termination within the given fuel). -/
def drawDifferent (server1 num_servers : Nat) : Rng → Nat → Option (Nat × Rng)
  | _, 0 => none
  | g, fuel + 1 =>
    if (Rng.next g).1 % num_servers = server1 then
      drawDifferent server1 num_servers (Rng.next g).2 fuel
    else some ((Rng.next g).1 % num_servers, (Rng.next g).2)

/-- The virtual `selectUpstreamServer` dispatched over the three subclasses. -/
def LoadBalancer.selectUpstreamServer (lb : LoadBalancer) (num_servers : Nat) (g : Rng)
    (fuel : Nat) : Option (Nat × LoadBalancer × Rng) :=
  match lb.policy with
  | .roundRobin cur_idx =>
    some (RoundRobin.step cur_idx num_servers,
          { lb with policy := .roundRobin (RoundRobin.step cur_idx num_servers) }, g)
  | .randomSelect =>
    some ((Rng.next g).1 % num_servers, lb, (Rng.next g).2)
  | .leastRequests =>
    match drawDifferent ((Rng.next g).1 % num_servers) num_servers (Rng.next g).2 fuel with
    | none => none
    | some (server2, g2) =>
      some (LeastRequests.choose lb.active_requests ((Rng.next g).1 % num_servers) server2,
            lb, g2)

/-- The policy-name dispatch in `ProxyServer::ProxyServer`.  There is no final
`else`: an unrecognized name leaves `load_balancer` as `none` (a null
`unique_ptr`). -/
def mkLoadBalancer (lb_policy : String) (num_servers : Nat) : Option LoadBalancer :=
  if lb_policy = "Round Robin" then
    some { policy := .roundRobin 0, active_requests := List.replicate num_servers 0 }
  else if lb_policy = "Random Select" then
    some { policy := .randomSelect, active_requests := List.replicate num_servers 0 }
  else if lb_policy = "Least Request" then
    some { policy := .leastRequests, active_requests := List.replicate num_servers 0 }
  else none

structure ProxyServer where
  lb : Option LoadBalancer
  id : Nat
deriving DecidableEq

def mkProxyServer (num_servers : Nat) (lb_policy : String) (id : Nat) : ProxyServer :=
  { lb := mkLoadBalancer lb_policy num_servers, id := id }

/-- `ProxyServer::onSendRequest`: select a server, bump the local counter.
`none` models the null-policy dereference and the exhausted rejection loop.
The backend enqueue `backend->onReceiveRequest(selected, id)` is performed by
the caller (`frontendArrivalsAux`). -/
def ProxyServer.onSendRequest (p : ProxyServer) (num_servers : Nat) (g : Rng) (fuel : Nat) :
    Option (ProxyServer × Nat × Rng) :=
  match p.lb with
  | none => none
  | some lb =>
    match lb.selectUpstreamServer num_servers g fuel with
    | none => none
    | some (sel, lb2, g2) => some ({ p with lb := some (lb2.onSendRequest sel) }, sel, g2)

/-- `ProxyServer::onReceiveResponse` (`none` models the null-policy dereference). -/
def ProxyServer.onReceiveResponse (p : ProxyServer) (upstream_server : Nat) : Option ProxyServer :=
  match p.lb with
  | none => none
  | some lb => some { p with lb := some (lb.onReceiveResponse upstream_server) }

/-- In-place update of one element (`vector[i]` mutation); out-of-range leaves
the list unchanged, and every use is guarded by an in-range fact. -/
def modifyList {α : Type} : List α → Nat → (α → α) → List α
  | [], _, _ => []
  | x :: xs, 0, f => f x :: xs
  | x :: xs, i + 1, f => x :: modifyList xs i f

structure Backend where
  upstream_servers : List UpstreamServer
deriving DecidableEq

/-- `Backend(int backend_servers)`: servers with ids `0..n-1`. -/
def Backend.mk0 (backend_servers : Nat) : Backend :=
  { upstream_servers := (List.range backend_servers).map UpstreamServer.mk0 }

def Backend.num_servers (b : Backend) : Nat := b.upstream_servers.length

def Backend.onReceiveRequest (b : Backend) (upstream_server proxy : Nat) : Backend :=
  { upstream_servers :=
      modifyList b.upstream_servers upstream_server (fun u => u.onReceiveRequest proxy) }

/-- `Backend::processRequest`: every server ticks; the completion records the
servers push into the global buffers are concatenated in server order. -/
def Backend.processRequest (b : Backend) : Backend × List Completion :=
  ({ upstream_servers := b.upstream_servers.map fun u => u.processRequest.1 },
   (b.upstream_servers.map fun u => u.processRequest.2).flatten)

def Backend.activeRequests (b : Backend) : List Nat :=
  b.upstream_servers.map UpstreamServer.activeRequests

structure Frontend where
  proxies : List ProxyServer
deriving DecidableEq

/-- `Frontend(...)`: proxies with ids `0..n-1` sharing one policy name. -/
def Frontend.mk0 (proxy_servers num_servers : Nat) (lb_policy : String) : Frontend :=
  { proxies := (List.range proxy_servers).map (mkProxyServer num_servers lb_policy) }

/-- The loop body of `Frontend::onReceiveRequest`: for each proxy in order,
draw `rand() % proxies.size()`; on 0 the proxy sends one request, which is
enqueued at the selected backend server under the proxy's id. -/
def frontendArrivalsAux (num_proxies num_servers fuel : Nat) :
    List ProxyServer → Backend → Rng → Option (List ProxyServer × Backend × Rng)
  | [], b, g => some ([], b, g)
  | p :: ps, b, g =>
    if (Rng.next g).1 % num_proxies = 0 then
      match p.onSendRequest num_servers (Rng.next g).2 fuel with
      | none => none
      | some (p2, sel, g2) =>
        match frontendArrivalsAux num_proxies num_servers fuel ps (b.onReceiveRequest sel p.id) g2 with
        | none => none
        | some (ps2, b2, g3) => some (p2 :: ps2, b2, g3)
    else
      match frontendArrivalsAux num_proxies num_servers fuel ps b (Rng.next g).2 with
      | none => none
      | some (ps2, b2, g2) => some (p :: ps2, b2, g2)

def Frontend.onReceiveRequest (f : Frontend) (b : Backend) (g : Rng) (fuel : Nat) :
    Option (Frontend × Backend × Rng) :=
  match frontendArrivalsAux f.proxies.length b.num_servers fuel f.proxies b g with
  | none => none
  | some (ps2, b2, g2) => some ({ proxies := ps2 }, b2, g2)

/-- `struct LBSimulator` together with the global completion buffers and the
modelled `rand()` stream.  The per-tick imbalance line and the file/stdout
streams are external output and are not part of the state. -/
structure LBSimulator where
  backend : Backend
  frontend : Frontend
  buffers : List Completion
  all_latency : List Int
  request_cnt : Nat
  total_latency : Int
  timer : Nat
  rng : Rng
deriving DecidableEq

def deliverOne (proxies : List ProxyServer) (source server : Nat) : Option (List ProxyServer) :=
  match proxies.get? source with
  | none => none
  | some p =>
    match p.onReceiveResponse server with
    | none => none
    | some p2 => some (proxies.set source p2)

/-- The delivery loop of `collectStats`:
`frontend.proxies[request_proxy[i]].onReceiveResponse(response_server[i])`. -/
def deliverAll (proxies : List ProxyServer) : List Completion → Option (List ProxyServer)
  | [] => some proxies
  | c :: cs =>
    match deliverOne proxies c.source c.serverId with
    | none => none
    | some ps => deliverAll ps cs

def LBSimulator.collectStats (s : LBSimulator) : Option LBSimulator :=
  match deliverAll s.frontend.proxies s.buffers with
  | none => none
  | some ps =>
    some { s with
           timer := s.timer + 1,
           frontend := { proxies := ps },
           request_cnt := s.request_cnt + s.buffers.length,
           total_latency := s.total_latency + (s.buffers.map fun c => (c.latency : Int)).sum,
           all_latency := s.all_latency ++ s.buffers.map fun c => (c.latency : Int) }

/-- `LBSimulator::cleanup`: clear the global completion buffers. -/
def LBSimulator.cleanup (s : LBSimulator) : LBSimulator := { s with buffers := [] }

/-- `LBSimulator::run1TimeUnit`: process, collect stats, cleanup, arrivals. -/
def LBSimulator.run1TimeUnit (s : LBSimulator) (fuel : Nat) : Option LBSimulator :=
  match LBSimulator.collectStats
      { s with backend := s.backend.processRequest.1,
               buffers := s.buffers ++ s.backend.processRequest.2 } with
  | none => none
  | some s2 =>
    match (s2.cleanup).frontend.onReceiveRequest (s2.cleanup).backend (s2.cleanup).rng fuel with
    | none => none
    | some (f2, b2, g2) => some { s2.cleanup with frontend := f2, backend := b2, rng := g2 }

/-- The simulator constructor (it calls `cleanup()`, so the buffers are empty). -/
def LBSimulator.init (proxy_servers backend_servers : Nat) (lb_policy : String)
    (g0 : Rng) : LBSimulator :=
  { backend := Backend.mk0 backend_servers,
    frontend := Frontend.mk0 proxy_servers backend_servers lb_policy,
    buffers := [], all_latency := [], request_cnt := 0, total_latency := 0,
    timer := 0, rng := g0 }

/-- Iterating `run1TimeUnit` (the driver loop of `main`). -/
def LBSimulator.runTicks (s : LBSimulator) (fuel : Nat) : Nat → Option LBSimulator
  | 0 => some s
  | n + 1 =>
    match s.run1TimeUnit fuel with
    | none => none
    | some s2 => s2.runTicks fuel n

/-- Sum of the queue lengths of all backend servers. -/
def LBSimulator.sumQueues (s : LBSimulator) : Nat :=
  (s.backend.upstream_servers.map UpstreamServer.activeRequests).sum

def ProxyServer.outstanding (p : ProxyServer) : Int :=
  match p.lb with
  | none => 0
  | some lb => lb.active_requests.sum

/-- Sum of every proxy's local outstanding-request counters. -/
def LBSimulator.sumCounters (s : LBSimulator) : Int :=
  (s.frontend.proxies.map ProxyServer.outstanding).sum

/-- Well-formed proxy: its id indexes a proxy, its counter vector (when the
policy exists) has one slot per backend server. -/
def ProxyWF (P N : Nat) (p : ProxyServer) : Prop :=
  p.id < P ∧ ∀ lb ∈ p.lb, lb.active_requests.length = N

/-- Well-formed simulator state at a tick boundary. -/
def SimWF (P N : Nat) (s : LBSimulator) : Prop :=
  s.frontend.proxies.length = P
  ∧ (∀ p ∈ s.frontend.proxies, ProxyWF P N p)
  ∧ s.backend.num_servers = N
  ∧ (∀ u ∈ s.backend.upstream_servers, u.serverId < N ∧ ∀ r ∈ u.queue, r.source < P)
  ∧ s.buffers = []
  ∧ (s.sumQueues : Int) = s.sumCounters

/-- The cursor value after `n` calls of `RoundRobin::selectUpstreamServer`
starting from the constructor state `cur_idx = 0`. -/
def RoundRobin.state (num_servers : Nat) : Nat → Nat
  | 0 => 0
  | n + 1 => RoundRobin.step (RoundRobin.state num_servers n) num_servers

/-- The value returned by the `n`-th call (0-based) on a fresh policy. -/
def RoundRobin.out (num_servers n : Nat) : Nat := RoundRobin.state num_servers (n + 1)

/-- A concrete single-proxy Round Robin frontend for the C9 witness. -/
def c9Frontend : Frontend := { proxies := [mkProxyServer 1 "Round Robin" 0] }

def c9Result : Frontend × Backend × Rng :=
  (c9Frontend.onReceiveRequest (Backend.mk0 1) [0] 1).getD (c9Frontend, Backend.mk0 1, [0])

/-- `std::sort(all_latency.begin(), all_latency.end());` -/
def sortLatencies (l : List Int) : List Int := l.mergeSort (fun a b => decide (a ≤ b))

/-- `int tail = request_cnt / 1000;` and the index `all_latency.size() - tail`. -/
def tailIndex (size request_cnt : Nat) : Nat := size - request_cnt / 1000

/-- The read `all_latency[all_latency.size() - tail]` after sorting; `none`
models the out-of-range vector access (undefined behaviour). -/
def latencyTailRead (all_latency : List Int) (request_cnt : Nat) : Option Int :=
  (sortLatencies all_latency).get? (tailIndex all_latency.length request_cnt)

/-- C++ integer division: truncation toward zero, undefined at divisor 0. -/
def cppDivInt (a b : Int) : Option Int := if b = 0 then none else some (a.tdiv b)

/-- `LBSimulator::latency()`: sorts, prints the tail-latency read, and returns
`total_latency / request_cnt`; `none` marks undefined behaviour on the way. -/
def LBSimulator.latency (all_latency : List Int) (request_cnt : Nat) (total_latency : Int) :
    Option (Int × Int) :=
  match latencyTailRead all_latency request_cnt with
  | none => none
  | some t =>
    match cppDivInt total_latency request_cnt with
    | none => none
    | some m => some (t, m)

/-! ## Theorems -/

theorem drain_eq (server_id : Nat) (q : List Request) :
    drain server_id q
      = (q.dropWhile (fun r => decide (r.remaining = 0)),
         (q.takeWhile (fun r => decide (r.remaining = 0))).map
           fun r => { source := r.source, serverId := server_id, latency := r.latency }) := by
  induction q with
  | nil => rfl
  | cons r rs ih =>
    by_cases h : r.remaining = 0
    · simp [drain, h, List.dropWhile_cons, List.takeWhile_cons, ih]
    · simp [drain, h, List.dropWhile_cons, List.takeWhile_cons]

theorem window_get {α : Type} (f : α → α) :
    ∀ (q : List α) (c i : Nat),
      (((q.take c).map f) ++ q.drop c).get? i
        = (q.get? i).map (fun r => if i < c then f r else r) := by
  intro q
  induction q with
  | nil => intro c i; simp
  | cons r rs ih =>
    intro c i
    cases c with
    | zero => simp
    | succ c =>
      cases i with
      | zero => simp
      | succ i =>
        simpa [List.get?] using ih c i

theorem decWindow_incLatencies_get (q : List Request) (i : Nat) :
    (decWindow (incLatencies q)).get? i
      = (q.get? i).map fun r =>
          { remaining := if i < concurrency then r.remaining - 1 else r.remaining,
            source := r.source, latency := r.latency + 1 } := by
  rw [decWindow, window_get, incLatencies, List.get?_map, Option.map_map]
  have hfun :
      ((fun r : Request => if i < concurrency then
          { remaining := r.remaining - 1, source := r.source, latency := r.latency } else r) ∘
        fun r : Request => { remaining := r.remaining, source := r.source, latency := r.latency + 1 })
      = fun r : Request =>
          { remaining := if i < concurrency then r.remaining - 1 else r.remaining,
            source := r.source, latency := r.latency + 1 } := by
    funext r
    by_cases hi : i < concurrency <;> simp [Function.comp, hi]
  rw [hfun]

/-- Claim C4: one tick of `UpstreamServer::processRequest` increments every
queued request's latency by 1, decrements the remaining service of exactly the
first `min(concurrency, queueLength)` requests in FIFO order (requests beyond
position `concurrency` are unchanged in remaining service), and then pops
requests from the front while the front's remaining service is 0, emitting one
completion record per popped request carrying its origin, the server id and
its accumulated latency. -/
theorem upstream_tick_characterization (s : UpstreamServer) :
    (∀ i : Nat,
      (decWindow (incLatencies s.queue)).get? i
        = (s.queue.get? i).map fun r =>
            { remaining := if i < concurrency then r.remaining - 1 else r.remaining,
              source := r.source, latency := r.latency + 1 })
    ∧ s.processRequest
        = ({ s with
             queue := (decWindow (incLatencies s.queue)).dropWhile
                        (fun r => decide (r.remaining = 0)) },
           ((decWindow (incLatencies s.queue)).takeWhile
               (fun r => decide (r.remaining = 0))).map
             (fun r => { source := r.source, serverId := s.serverId, latency := r.latency })) := by
  refine ⟨fun i => decWindow_incLatencies_get s.queue i, ?_⟩
  simp [UpstreamServer.processRequest, drain_eq]

theorem erase_gStep (q : List GRequest) :
    (gStep q).map GRequest.erase = decWindow (incLatencies (q.map GRequest.erase)) := by
  simp only [gStep, decWindow, incLatencies, List.map_append, List.map_map,
    List.map_take, List.map_drop]
  rfl

theorem erase_gDrain (server_id : Nat) (q : List GRequest) :
    ((gDrain server_id q).1.map GRequest.erase, (gDrain server_id q).2.map GCompletion.erase)
      = drain server_id (q.map GRequest.erase) := by
  induction q with
  | nil => rfl
  | cons r rs ih =>
    by_cases h : r.remaining = 0
    · simp only [gDrain, drain, List.map_cons, GRequest.erase, h, if_true]
      rw [Prod.mk.injEq] at ih ⊢
      exact ⟨ih.1, by simp [GCompletion.erase, ih.2]⟩
    · simp [gDrain, drain, GRequest.erase, h]

theorem erase_processRequest (s : GServer) :
    s.processRequest.1.erase = s.erase.processRequest.1
    ∧ s.processRequest.2.map GCompletion.erase = s.erase.processRequest.2 := by
  have h := erase_gDrain s.serverId (gStep s.queue)
  rw [erase_gStep] at h
  rw [Prod.mk.injEq] at h
  constructor
  · simp only [GServer.processRequest, GServer.erase, UpstreamServer.processRequest]
    rw [h.1]
  · simpa [GServer.processRequest, GServer.erase, UpstreamServer.processRequest] using h.2

theorem erase_applyEvent (s : GServer) (e : SEvent) :
    (s.applyEvent e).erase = s.erase.applyEvent e := by
  cases e with
  | enq source =>
    simp [GServer.applyEvent, UpstreamServer.applyEvent, GServer.onReceiveRequest,
      UpstreamServer.onReceiveRequest, GServer.erase, GRequest.erase]
  | tick => exact (erase_processRequest s).1

theorem erase_foldl (tr : List SEvent) :
    ∀ s : GServer, (tr.foldl GServer.applyEvent s).erase
      = tr.foldl UpstreamServer.applyEvent s.erase := by
  induction tr with
  | nil => intro s; rfl
  | cons e tr ih => intro s; rw [List.foldl_cons, List.foldl_cons, ih, erase_applyEvent]

theorem erase_runEvents (server_id : Nat) (tr : List SEvent) :
    (GServer.runEvents server_id tr).erase = UpstreamServer.runEvents server_id tr :=
  erase_foldl tr (GServer.mk0 server_id)

theorem gStep_inv {q : List GRequest} (hq : ∀ r ∈ q, GReqInv r) :
    ∀ r ∈ gStep q, GReqInv r := by
  intro r hr
  rcases List.mem_append.mp hr with h | h
  · rcases List.mem_map.mp h with ⟨r0, hr0, rfl⟩
    have := hq r0 (List.take_subset _ _ hr0)
    unfold GReqInv at this ⊢
    push_cast
    omega
  · rcases List.mem_map.mp h with ⟨r0, hr0, rfl⟩
    have := hq r0 (List.drop_subset _ _ hr0)
    unfold GReqInv at this ⊢
    push_cast
    omega

theorem gDrain_fst_subset (server_id : Nat) :
    ∀ (q : List GRequest) (r : GRequest), r ∈ (gDrain server_id q).1 → r ∈ q := by
  intro q
  induction q with
  | nil => intro r hr; simpa [gDrain] using hr
  | cons r0 rs ih =>
    intro r hr
    by_cases h : r0.remaining = 0
    · simp only [gDrain, h, if_true] at hr
      exact List.mem_cons_of_mem _ (ih r hr)
    · simpa [gDrain, h] using hr

theorem gDrain_snd_spec (server_id : Nat) :
    ∀ (q : List GRequest) (c : GCompletion), c ∈ (gDrain server_id q).2 →
      ∃ r ∈ q, r.remaining = 0 ∧ c = ⟨r.source, server_id, r.latency, r.outWindow⟩ := by
  intro q
  induction q with
  | nil => intro c hc; simp [gDrain] at hc
  | cons r0 rs ih =>
    intro c hc
    by_cases h : r0.remaining = 0
    · simp only [gDrain, h, if_true, List.mem_cons] at hc
      rcases hc with rfl | hc
      · exact ⟨r0, List.mem_cons_self _ _, h, rfl⟩
      · rcases ih c hc with ⟨r, hr, hrem, rfl⟩
        exact ⟨r, List.mem_cons_of_mem _ hr, hrem, rfl⟩
    · simp [gDrain, h] at hc

theorem ginv_applyEvent {s : GServer} (hs : GInv s) (e : SEvent) : GInv (s.applyEvent e) := by
  cases e with
  | enq source =>
    refine ⟨hs.1, ?_⟩
    intro r hr
    rcases List.mem_append.mp hr with h | h
    · exact hs.2 r h
    · rcases List.mem_singleton.mp h with rfl
      unfold GReqInv
      simp [hs.1]
  | tick =>
    refine ⟨hs.1, ?_⟩
    intro r hr
    exact gStep_inv hs.2 r (gDrain_fst_subset _ _ r hr)

theorem ginv_foldl (tr : List SEvent) :
    ∀ s : GServer, GInv s → GInv (tr.foldl GServer.applyEvent s) := by
  induction tr with
  | nil => intro s hs; exact hs
  | cons e tr ih => intro s hs; exact ih _ (ginv_applyEvent hs e)

theorem ginv_runEvents (server_id : Nat) (tr : List SEvent) :
    GInv (GServer.runEvents server_id tr) :=
  ginv_foldl tr _ ⟨rfl, by intro r hr; simp [GServer.mk0] at hr⟩

/-- Claim C5: for every request enqueued at an `UpstreamServer` (any history
`tr` of enqueues and ticks), the latency in its completion record equals the
fixed service time (100) plus the number of ticks it spent outside the
first-`concurrency` window, and equals the fixed service time alone exactly
when it never waited outside the window.  The instrumented run erases to the
source-embedded run, so the completions are those of the program. -/
theorem completion_latency_decomposition (server_id : Nat) (tr : List SEvent) (c : GCompletion)
    (hc : c ∈ (GServer.runEvents server_id tr).processRequest.2) :
    (GServer.runEvents server_id tr).erase = UpstreamServer.runEvents server_id tr
    ∧ (GServer.runEvents server_id tr).processRequest.2.map GCompletion.erase
        = (UpstreamServer.runEvents server_id tr).processRequest.2
    ∧ c.latency = 100 + c.outWindow
    ∧ (c.latency = 100 ↔ c.outWindow = 0) := by
  have herase := erase_runEvents server_id tr
  have hcomp : (GServer.runEvents server_id tr).processRequest.2.map GCompletion.erase
      = (UpstreamServer.runEvents server_id tr).processRequest.2 := by
    rw [(erase_processRequest _).2, herase]
  have hinv := ginv_runEvents server_id tr
  rcases gDrain_snd_spec _ _ c hc with ⟨r, hr, hrem, rfl⟩
  have hreq := gStep_inv hinv.2 r hr
  unfold GReqInv at hreq
  rw [hrem] at hreq
  refine ⟨herase, hcomp, ?_, ?_⟩
  · show r.latency = 100 + r.outWindow
    omega
  · show r.latency = 100 ↔ r.outWindow = 0
    omega

set_option maxRecDepth 8000 in
/-- Witness for C5: one request enqueued and then served for 100 ticks
completes with latency 100 and zero ticks spent outside the window. -/
theorem completion_latency_decomposition_witness :
    ((⟨0, 0, 100, 0⟩ : GCompletion)
        ∈ (GServer.runEvents 0 (SEvent.enq 0 :: List.replicate 99 SEvent.tick)).processRequest.2)
    ∧ ((GServer.runEvents 0 (SEvent.enq 0 :: List.replicate 99 SEvent.tick)).erase
          = UpstreamServer.runEvents 0 (SEvent.enq 0 :: List.replicate 99 SEvent.tick)
        ∧ (GServer.runEvents 0 (SEvent.enq 0 :: List.replicate 99 SEvent.tick)).processRequest.2.map
              GCompletion.erase
          = (UpstreamServer.runEvents 0 (SEvent.enq 0 :: List.replicate 99 SEvent.tick)).processRequest.2
        ∧ (100 : Nat) = 100 + (0 : Nat)
        ∧ ((100 : Nat) = 100 ↔ (0 : Nat) = 0)) :=
  ⟨by decide,
   completion_latency_decomposition 0 (SEvent.enq 0 :: List.replicate 99 SEvent.tick)
     ⟨0, 0, 100, 0⟩ (by decide)⟩

theorem sum_int_set : ∀ (l : List Int) (i : Nat) (x : Int), i < l.length →
    (l.set i x).sum = l.sum - l.getD i 0 + x := by
  intro l
  induction l with
  | nil => intro i x h; simp at h
  | cons a as ih =>
    intro i x h
    cases i with
    | zero => simp [List.set]; ring
    | succ n =>
      have hn : n < as.length := by simpa using h
      simp only [List.set, List.sum_cons, List.getD_cons_succ, ih n x hn]
      ring

theorem listInc_sum (l : List Int) (i : Nat) (h : i < l.length) :
    (listInc l i).sum = l.sum + 1 := by
  unfold listInc
  rw [sum_int_set l i _ h]
  ring

theorem listDec_sum (l : List Int) (i : Nat) (h : i < l.length) :
    (listDec l i).sum = l.sum - 1 := by
  unfold listDec
  rw [sum_int_set l i _ h]
  ring

theorem listInc_length (l : List Int) (i : Nat) : (listInc l i).length = l.length := by
  simp [listInc]

theorem listDec_length (l : List Int) (i : Nat) : (listDec l i).length = l.length := by
  simp [listDec]

theorem map_sum_set {α : Type} (f : α → Int) :
    ∀ (l : List α) (i : Nat) (a : α) (h : i < l.length),
      ((l.set i a).map f).sum = (l.map f).sum - f (l.get ⟨i, h⟩) + f a := by
  intro l
  induction l with
  | nil => intro i a h; simp at h
  | cons x xs ih =>
    intro i a h
    cases i with
    | zero => simp [List.set]; ring
    | succ n =>
      have hn : n < xs.length := by simpa using h
      simp only [List.set, List.map_cons, List.sum_cons, List.get, ih n a hn]
      ring

theorem modifyList_length {α : Type} :
    ∀ (l : List α) (i : Nat) (f : α → α), (modifyList l i f).length = l.length := by
  intro l
  induction l with
  | nil => intro i f; rfl
  | cons x xs ih =>
    intro i f
    cases i with
    | zero => rfl
    | succ n => simp [modifyList, ih]

theorem mem_modifyList {α : Type} :
    ∀ (l : List α) (i : Nat) (f : α → α) (y : α), y ∈ modifyList l i f →
      y ∈ l ∨ ∃ x ∈ l, y = f x := by
  intro l
  induction l with
  | nil => intro i f y h; simp [modifyList] at h
  | cons x xs ih =>
    intro i f y h
    cases i with
    | zero =>
      rcases List.mem_cons.mp h with rfl | h
      · exact Or.inr ⟨x, List.mem_cons_self _ _, rfl⟩
      · exact Or.inl (List.mem_cons_of_mem _ h)
    | succ n =>
      rcases List.mem_cons.mp h with rfl | h
      · exact Or.inl (List.mem_cons_self _ _)
      · rcases ih n f y h with h | ⟨x0, hx0, rfl⟩
        · exact Or.inl (List.mem_cons_of_mem _ h)
        · exact Or.inr ⟨x0, List.mem_cons_of_mem _ hx0, rfl⟩

theorem map_sum_modifyList_add_one {α : Type} (g : α → Nat) (f : α → α)
    (hf : ∀ x, g (f x) = g x + 1) :
    ∀ (l : List α) (i : Nat), i < l.length →
      ((modifyList l i f).map g).sum = (l.map g).sum + 1 := by
  intro l
  induction l with
  | nil => intro i h; simp at h
  | cons x xs ih =>
    intro i h
    cases i with
    | zero => simp [modifyList, hf]; omega
    | succ n =>
      have hn : n < xs.length := by simpa using h
      simp only [modifyList, List.map_cons, List.sum_cons, ih n hn]
      omega

theorem drawDifferent_mem (server1 num_servers : Nat) (hn : 0 < num_servers) :
    ∀ (fuel : Nat) (g : Rng) (r : Nat) (g2 : Rng),
      drawDifferent server1 num_servers g fuel = some (r, g2) →
      r < num_servers ∧ r ≠ server1 := by
  intro fuel
  induction fuel with
  | zero => intro g r g2 h; simp [drawDifferent] at h
  | succ m ih =>
    intro g r g2 h
    rw [drawDifferent] at h
    by_cases hc : (Rng.next g).1 % num_servers = server1
    · rw [if_pos hc] at h
      exact ih _ r g2 h
    · rw [if_neg hc] at h
      cases h
      exact ⟨Nat.mod_lt _ hn, hc⟩

theorem leastRequests_choose_cases (active : List Int) (a b : Nat) :
    LeastRequests.choose active a b = a ∨ LeastRequests.choose active a b = b := by
  unfold LeastRequests.choose
  split
  · exact Or.inl rfl
  · exact Or.inr rfl

/-- A successful `selectUpstreamServer` returns an in-range index and leaves
the outstanding counters untouched. -/
theorem select_spec (lb : LoadBalancer) (num_servers : Nat) (g : Rng) (fuel : Nat)
    (sel : Nat) (lb2 : LoadBalancer) (g2 : Rng) (hn : 0 < num_servers)
    (h : lb.selectUpstreamServer num_servers g fuel = some (sel, lb2, g2)) :
    sel < num_servers ∧ lb2.active_requests = lb.active_requests := by
  unfold LoadBalancer.selectUpstreamServer at h
  cases hp : lb.policy with
  | roundRobin cur_idx =>
    rw [hp] at h
    cases h
    exact ⟨Nat.mod_lt _ hn, rfl⟩
  | randomSelect =>
    rw [hp] at h
    cases h
    exact ⟨Nat.mod_lt _ hn, rfl⟩
  | leastRequests =>
    rw [hp] at h
    cases hd : drawDifferent ((Rng.next g).1 % num_servers) num_servers (Rng.next g).2 fuel with
    | none => rw [hd] at h; cases h
    | some v =>
      rw [hd] at h
      cases h
      have hv := drawDifferent_mem _ _ hn fuel _ v.1 v.2 (by rw [hd])
      rcases leastRequests_choose_cases lb.active_requests ((Rng.next g).1 % num_servers) v.1
        with hc | hc
      · rw [hc]
        exact ⟨Nat.mod_lt _ hn, rfl⟩
      · rw [hc]
        exact ⟨hv.1, rfl⟩

/-- A successful `ProxyServer::onSendRequest` keeps the id, selects an
in-range server, keeps the counter-vector length and raises the outstanding
sum by exactly one. -/
theorem proxy_send_spec (p : ProxyServer) (num_servers : Nat) (g : Rng) (fuel : Nat)
    (p2 : ProxyServer) (sel : Nat) (g2 : Rng) (hn : 0 < num_servers)
    (hlen : ∀ lb ∈ p.lb, lb.active_requests.length = num_servers)
    (h : p.onSendRequest num_servers g fuel = some (p2, sel, g2)) :
    sel < num_servers ∧ p2.id = p.id
    ∧ (∀ lb ∈ p2.lb, lb.active_requests.length = num_servers)
    ∧ p2.outstanding = p.outstanding + 1 := by
  unfold ProxyServer.onSendRequest at h
  split at h
  · exact Option.noConfusion h
  next lb hp =>
    split at h
    · exact Option.noConfusion h
    next sel0 lb0 g0 hs =>
      cases h
      have hv := select_spec lb num_servers g fuel sel lb0 g2 hn hs
      have hlb := hlen lb (by rw [hp]; rfl)
      refine ⟨hv.1, rfl, ?_, ?_⟩
      · intro lb2 hlb2
        cases hlb2
        simp [LoadBalancer.onSendRequest, listInc_length, hv.2, hlb]
      · simp only [ProxyServer.outstanding, hp, LoadBalancer.onSendRequest]
        rw [hv.2]
        exact listInc_sum _ _ (by rw [hlb]; exact hv.1)

theorem decWindow_length (q : List Request) : (decWindow q).length = q.length := by
  simp only [decWindow, List.length_append, List.length_map, List.length_take, List.length_drop]
  omega

theorem incLatencies_length (q : List Request) : (incLatencies q).length = q.length := by
  simp [incLatencies]

theorem takeWhile_dropWhile_length {α : Type} (p : α → Bool) (l : List α) :
    (l.takeWhile p).length + (l.dropWhile p).length = l.length := by
  conv_rhs => rw [← List.takeWhile_append_dropWhile p l]
  rw [List.length_append]

theorem server_tick_len (u : UpstreamServer) :
    u.processRequest.1.activeRequests + u.processRequest.2.length = u.activeRequests := by
  simp only [UpstreamServer.processRequest, UpstreamServer.activeRequests, drain_eq,
    List.length_map]
  rw [Nat.add_comm, takeWhile_dropWhile_length, decWindow_length, incLatencies_length]

theorem mem_decWindow_incLatencies (q : List Request) (r2 : Request)
    (h : r2 ∈ decWindow (incLatencies q)) : ∃ r ∈ q, r2.source = r.source := by
  rcases List.mem_append.mp h with h1 | h1
  · rcases List.mem_map.mp h1 with ⟨r1, hr1, rfl⟩
    rcases List.mem_map.mp (List.take_subset _ _ hr1) with ⟨r, hr, rfl⟩
    exact ⟨r, hr, rfl⟩
  · rcases List.mem_map.mp (List.drop_subset _ _ h1) with ⟨r, hr, rfl⟩
    exact ⟨r, hr, rfl⟩

theorem server_tick_comps (u : UpstreamServer) (c : Completion)
    (hc : c ∈ u.processRequest.2) :
    c.serverId = u.serverId ∧ ∃ r ∈ u.queue, c.source = r.source := by
  simp only [UpstreamServer.processRequest, drain_eq, List.mem_map] at hc
  rcases hc with ⟨r2, hr2, rfl⟩
  exact ⟨rfl, mem_decWindow_incLatencies _ _ ((List.takeWhile_sublist _).mem hr2)⟩

theorem server_tick_queue (u : UpstreamServer) (r2 : Request)
    (h : r2 ∈ u.processRequest.1.queue) : ∃ r ∈ u.queue, r2.source = r.source := by
  simp only [UpstreamServer.processRequest, drain_eq] at h
  exact mem_decWindow_incLatencies _ _ ((List.dropWhile_sublist _).mem h)

theorem backend_tick_sum_servers (us : List UpstreamServer) :
    ((us.map fun u => u.processRequest.1).map UpstreamServer.activeRequests).sum
      + ((us.map fun u => u.processRequest.2).flatten).length
      = (us.map UpstreamServer.activeRequests).sum := by
  induction us with
  | nil => rfl
  | cons u us ih =>
    simp only [List.map_cons, List.flatten_cons, List.sum_cons, List.length_append]
    have h := server_tick_len u
    omega

theorem backend_tick_sum (b : Backend) :
    (b.processRequest.1.upstream_servers.map UpstreamServer.activeRequests).sum
      + b.processRequest.2.length
      = (b.upstream_servers.map UpstreamServer.activeRequests).sum :=
  backend_tick_sum_servers b.upstream_servers

theorem backend_tick_wf (P N : Nat) (b : Backend)
    (hlen : b.num_servers = N)
    (hsrv : ∀ u ∈ b.upstream_servers, u.serverId < N ∧ ∀ r ∈ u.queue, r.source < P) :
    b.processRequest.1.num_servers = N
    ∧ (∀ u2 ∈ b.processRequest.1.upstream_servers,
        u2.serverId < N ∧ ∀ r ∈ u2.queue, r.source < P)
    ∧ (∀ c ∈ b.processRequest.2, c.serverId < N ∧ c.source < P) := by
  refine ⟨?_, ?_, ?_⟩
  · simpa [Backend.processRequest, Backend.num_servers] using hlen
  · intro u2 hu2
    simp only [Backend.processRequest, List.mem_map] at hu2
    rcases hu2 with ⟨u, hu, rfl⟩
    obtain ⟨hid, hsrc⟩ := hsrv u hu
    refine ⟨hid, ?_⟩
    intro r2 hr2
    rcases server_tick_queue u r2 hr2 with ⟨r, hr, he⟩
    rw [he]
    exact hsrc r hr
  · intro c hc
    simp only [Backend.processRequest, List.mem_flatten, List.mem_map] at hc
    rcases hc with ⟨l, ⟨u, hu, rfl⟩, hcl⟩
    obtain ⟨hid, hsrc⟩ := hsrv u hu
    rcases server_tick_comps u c hcl with ⟨hsid, r, hr, he⟩
    rw [hsid, he]
    exact ⟨hid, hsrc r hr⟩

theorem deliverOne_spec (P N : Nat) (ps ps2 : List ProxyServer) (source server : Nat)
    (h : deliverOne ps source server = some ps2)
    (hwf : ∀ p ∈ ps, ProxyWF P N p) (hserver : server < N) :
    ps2.length = ps.length
    ∧ (∀ p ∈ ps2, ProxyWF P N p)
    ∧ (ps2.map ProxyServer.outstanding).sum = (ps.map ProxyServer.outstanding).sum - 1 := by
  unfold deliverOne at h
  split at h
  · exact Option.noConfusion h
  next p hp =>
    split at h
    · exact Option.noConfusion h
    next p2 hp2 =>
      cases h
      have hsrc : source < ps.length := by
        by_contra hge
        rw [List.get?_eq_none.mpr (Nat.le_of_not_lt hge)] at hp
        exact Option.noConfusion hp
      have hpmem : p ∈ ps := List.get?_mem hp
      obtain ⟨hpid, hplen⟩ := hwf p hpmem
      unfold ProxyServer.onReceiveResponse at hp2
      split at hp2
      · exact Option.noConfusion hp2
      next lb hlb =>
        cases hp2
        have hlbl := hplen lb (by rw [hlb]; rfl)
        have hout2 : ProxyServer.outstanding { p with lb := some (lb.onReceiveResponse server) }
            = p.outstanding - 1 := by
          simp only [ProxyServer.outstanding, hlb, LoadBalancer.onReceiveResponse]
          exact listDec_sum _ _ (by rw [hlbl]; exact hserver)
        have hwf2 : ProxyWF P N { p with lb := some (lb.onReceiveResponse server) } := by
          refine ⟨hpid, ?_⟩
          intro lb2 hlb2
          cases hlb2
          simp [LoadBalancer.onReceiveResponse, listDec_length, hlbl]
        refine ⟨by simp, ?_, ?_⟩
        · intro q hq
          rcases List.mem_or_eq_of_mem_set hq with hq | rfl
          · exact hwf q hq
          · exact hwf2
        · have hget : ps.get ⟨source, hsrc⟩ = p := by
            have := List.get?_eq_get hsrc
            rw [hp] at this
            exact (Option.some.inj this).symm
          rw [map_sum_set ProxyServer.outstanding ps source _ hsrc, hget, hout2]
          ring

theorem deliverAll_spec (P N : Nat) :
    ∀ (cs : List Completion) (ps ps2 : List ProxyServer),
      deliverAll ps cs = some ps2 →
      (∀ p ∈ ps, ProxyWF P N p) →
      (∀ c ∈ cs, c.serverId < N) →
      ps2.length = ps.length
      ∧ (∀ p ∈ ps2, ProxyWF P N p)
      ∧ (ps2.map ProxyServer.outstanding).sum
          = (ps.map ProxyServer.outstanding).sum - cs.length := by
  intro cs
  induction cs with
  | nil =>
    intro ps ps2 h hwf hc
    cases h
    exact ⟨rfl, hwf, by simp⟩
  | cons c cs ih =>
    intro ps ps2 h hwf hc
    unfold deliverAll at h
    split at h
    · exact Option.noConfusion h
    next ps1 h1 =>
      have hone := deliverOne_spec P N ps ps1 c.source c.serverId h1 hwf
        (hc c (List.mem_cons_self _ _))
      have hrest := ih ps1 ps2 h hone.2.1 (fun c2 hc2 => hc c2 (List.mem_cons_of_mem _ hc2))
      refine ⟨hrest.1.trans hone.1, hrest.2.1, ?_⟩
      rw [hrest.2.2, hone.2.2]
      simp only [List.length_cons]
      push_cast
      ring

theorem backend_enqueue_spec (P N : Nat) (b : Backend) (sel pid : Nat)
    (hsel : sel < b.num_servers) (hpid : pid < P) (hlen : b.num_servers = N)
    (hsrv : ∀ u ∈ b.upstream_servers, u.serverId < N ∧ ∀ r ∈ u.queue, r.source < P) :
    (b.onReceiveRequest sel pid).num_servers = N
    ∧ (∀ u ∈ (b.onReceiveRequest sel pid).upstream_servers,
        u.serverId < N ∧ ∀ r ∈ u.queue, r.source < P)
    ∧ ((b.onReceiveRequest sel pid).upstream_servers.map UpstreamServer.activeRequests).sum
        = (b.upstream_servers.map UpstreamServer.activeRequests).sum + 1 := by
  refine ⟨?_, ?_, ?_⟩
  · simpa [Backend.onReceiveRequest, Backend.num_servers, modifyList_length] using hlen
  · intro u hu
    simp only [Backend.onReceiveRequest] at hu
    rcases mem_modifyList _ _ _ u hu with h | ⟨u0, hu0, rfl⟩
    · exact hsrv u h
    · obtain ⟨hid, hsrc⟩ := hsrv u0 hu0
      refine ⟨hid, ?_⟩
      intro r hr
      simp only [UpstreamServer.onReceiveRequest] at hr
      rcases List.mem_append.mp hr with h | h
      · exact hsrc r h
      · rcases List.mem_singleton.mp h with rfl
        exact hpid
  · exact map_sum_modifyList_add_one UpstreamServer.activeRequests _
      (fun u => by simp [UpstreamServer.onReceiveRequest, UpstreamServer.activeRequests])
      b.upstream_servers sel (by simpa [Backend.num_servers] using hsel)

theorem arrivalsAux_spec (P N fuel : Nat) (hN : 0 < N) :
    ∀ (ps : List ProxyServer) (b : Backend) (g : Rng)
      (ps2 : List ProxyServer) (b2 : Backend) (g2 : Rng),
      frontendArrivalsAux P N fuel ps b g = some (ps2, b2, g2) →
      (∀ p ∈ ps, ProxyWF P N p) →
      b.num_servers = N →
      (∀ u ∈ b.upstream_servers, u.serverId < N ∧ ∀ r ∈ u.queue, r.source < P) →
      (∀ p ∈ ps2, ProxyWF P N p)
      ∧ ps2.length = ps.length
      ∧ b2.num_servers = N
      ∧ (∀ u ∈ b2.upstream_servers, u.serverId < N ∧ ∀ r ∈ u.queue, r.source < P)
      ∧ (ps2.map ProxyServer.outstanding).sum - (ps.map ProxyServer.outstanding).sum
          = ((b2.upstream_servers.map UpstreamServer.activeRequests).sum : Int)
             - ((b.upstream_servers.map UpstreamServer.activeRequests).sum : Int) := by
  intro ps
  induction ps with
  | nil =>
    intro b g ps2 b2 g2 h hwf hblen hbsrv
    cases h
    exact ⟨by simp, rfl, hblen, hbsrv, by simp⟩
  | cons p ps ih =>
    intro b g ps2 b2 g2 h hwf hblen hbsrv
    unfold frontendArrivalsAux at h
    split at h
    · -- this proxy sends
      split at h
      · exact Option.noConfusion h
      next p2 sel gs hsend =>
        split at h
        · exact Option.noConfusion h
        next ps1 b1 g1 hrec =>
          cases h
          have hp := hwf p (List.mem_cons_self _ _)
          have hsend2 := proxy_send_spec p N _ fuel p2 sel gs hN hp.2 hsend
          have henq := backend_enqueue_spec P N b sel p.id
            (by rw [hblen]; exact hsend2.1) hp.1 hblen hbsrv
          have hrest := ih (b.onReceiveRequest sel p.id) gs ps1 b2 g2 hrec
            (fun q hq => hwf q (List.mem_cons_of_mem _ hq)) henq.1 henq.2.1
          refine ⟨?_, ?_, hrest.2.2.1, hrest.2.2.2.1, ?_⟩
          · intro q hq
            rcases List.mem_cons.mp hq with rfl | hq
            · exact ⟨hsend2.2.1 ▸ hp.1, hsend2.2.2.1⟩
            · exact hrest.1 q hq
          · simp [hrest.2.1]
          · simp only [List.map_cons, List.sum_cons]
            have hsums := hrest.2.2.2.2
            have hq1 := henq.2.2
            have hout := hsend2.2.2.2
            omega
    · -- this proxy does not send
      split at h
      · exact Option.noConfusion h
      next ps1 b1 g1 hrec =>
        cases h
        have hrest := ih b _ ps1 b2 g2 hrec
          (fun q hq => hwf q (List.mem_cons_of_mem _ hq)) hblen hbsrv
        refine ⟨?_, ?_, hrest.2.2.1, hrest.2.2.2.1, ?_⟩
        · intro q hq
          rcases List.mem_cons.mp hq with rfl | hq
          · exact hwf q (List.mem_cons_self _ _)
          · exact hrest.1 q hq
        · simp [hrest.2.1]
        · simp only [List.map_cons, List.sum_cons]
          have hsums := hrest.2.2.2.2
          omega

theorem run1_preserves (P N fuel : Nat) (hN : 0 < N) (s s2 : LBSimulator)
    (h : s.run1TimeUnit fuel = some s2) (hwf : SimWF P N s) : SimWF P N s2 := by
  obtain ⟨hPlen, hPwf, hNlen, hSrv, hBuf, hSum⟩ := hwf
  have htick := backend_tick_wf P N s.backend hNlen hSrv
  unfold LBSimulator.run1TimeUnit at h
  split at h
  · exact Option.noConfusion h
  next sB hB =>
    unfold LBSimulator.collectStats at hB
    split at hB
    · exact Option.noConfusion hB
    next psB hD =>
      cases hB
      rw [hBuf] at hD
      simp only [List.nil_append] at hD
      have hDel := deliverAll_spec P N s.backend.processRequest.2 s.frontend.proxies psB hD
        hPwf (fun c hc => (htick.2.2 c hc).1)
      split at h
      · exact Option.noConfusion h
      next f2 b2 g2 hA =>
        cases h
        unfold Frontend.onReceiveRequest at hA
        split at hA
        · exact Option.noConfusion hA
        next ps2 b2' g2' hAux =>
          cases hA
          dsimp only [LBSimulator.cleanup] at hAux
          have hPlenB : psB.length = P := hDel.1.trans hPlen
          rw [hPlenB] at hAux
          have hNlenB : (s.backend.processRequest.1).num_servers = N := htick.1
          rw [hNlenB] at hAux
          have hArr := arrivalsAux_spec P N fuel hN psB s.backend.processRequest.1 _
            ps2 b2 g2 hAux hDel.2.1 htick.1 htick.2.1
          refine ⟨?_, ?_, hArr.2.2.1, hArr.2.2.2.1, rfl, ?_⟩
          · simpa [LBSimulator.cleanup] using hArr.2.1.trans hPlenB
          · simpa [LBSimulator.cleanup] using hArr.1
          · have h1 := hArr.2.2.2.2
            have h2 := hDel.2.2
            have h3 := backend_tick_sum s.backend
            simp only [LBSimulator.sumQueues, LBSimulator.sumCounters, LBSimulator.cleanup]
            simp only [LBSimulator.sumQueues, LBSimulator.sumCounters] at hSum
            omega

theorem runTicks_preserves (P N fuel : Nat) (hN : 0 < N) :
    ∀ (steps : Nat) (s s2 : LBSimulator),
      s.runTicks fuel steps = some s2 → SimWF P N s → SimWF P N s2 := by
  intro steps
  induction steps with
  | zero =>
    intro s s2 h hwf
    cases h
    exact hwf
  | succ n ih =>
    intro s s2 h hwf
    unfold LBSimulator.runTicks at h
    split at h
    · exact Option.noConfusion h
    next s1 h1 => exact ih s1 s2 h (run1_preserves P N fuel hN s s1 h1 hwf)

theorem outstanding_mkProxyServer (n : Nat) (name : String) (i : Nat) :
    (mkProxyServer n name i).outstanding = 0 := by
  simp only [mkProxyServer, ProxyServer.outstanding, mkLoadBalancer]
  split_ifs <;> simp [List.sum_replicate]

theorem init_WF (P N : Nat) (lb_policy : String) (g0 : Rng) :
    SimWF P N (LBSimulator.init P N lb_policy g0) := by
  refine ⟨?_, ?_, ?_, ?_, rfl, ?_⟩
  · simp [LBSimulator.init, Frontend.mk0]
  · intro p hp
    simp only [LBSimulator.init, Frontend.mk0, List.mem_map] at hp
    rcases hp with ⟨i, hi, rfl⟩
    refine ⟨by simpa [mkProxyServer] using List.mem_range.mp hi, ?_⟩
    intro lb hlb
    simp only [mkProxyServer, mkLoadBalancer] at hlb
    split_ifs at hlb <;> cases hlb <;> simp
  · simp [LBSimulator.init, Backend.mk0, Backend.num_servers]
  · intro u hu
    simp only [LBSimulator.init, Backend.mk0, List.mem_map] at hu
    rcases hu with ⟨i, hi, rfl⟩
    exact ⟨by simpa [UpstreamServer.mk0] using List.mem_range.mp hi,
           by simp [UpstreamServer.mk0]⟩
  · simp only [LBSimulator.sumQueues, LBSimulator.sumCounters, LBSimulator.init,
      Backend.mk0, Frontend.mk0, List.map_map]
    rw [List.sum_eq_zero, List.sum_eq_zero]
    · simp
    · intro x hx
      rcases List.mem_map.mp hx with ⟨i, hi, rfl⟩
      exact outstanding_mkProxyServer N lb_policy i
    · intro x hx
      rcases List.mem_map.mp hx with ⟨i, hi, rfl⟩
      simp [Function.comp, UpstreamServer.mk0, UpstreamServer.activeRequests]

/-- Claim C8: at every tick boundary (after completions have been delivered and
before the next tick's processing), the sum of the backend servers' queue
lengths equals the sum of all proxies' local outstanding-request counters, on
every reachable simulation state. -/
theorem tick_boundary_balance (P N fuel steps : Nat) (lb_policy : String) (g0 : Rng)
    (hN : 0 < N) (s : LBSimulator)
    (hs : (LBSimulator.init P N lb_policy g0).runTicks fuel steps = some s) :
    (s.sumQueues : Int) = s.sumCounters :=
  (runTicks_preserves P N fuel hN steps _ s hs (init_WF P N lb_policy g0)).2.2.2.2.2

/-- Witness for C8: two full ticks of a one-proxy, one-server Round Robin run. -/
theorem tick_boundary_balance_witness :
    0 < 1 ∧
    (((((LBSimulator.init 1 1 "Round Robin" []).runTicks 1 2).getD
          (LBSimulator.init 1 1 "Round Robin" [])).sumQueues : Int)
        = ((((LBSimulator.init 1 1 "Round Robin" []).runTicks 1 2).getD
          (LBSimulator.init 1 1 "Round Robin" []))).sumCounters) :=
  ⟨Nat.one_pos,
   tick_boundary_balance 1 1 1 2 "Round Robin" [] Nat.one_pos _ (by rfl)⟩

/-- Claim C6: for distinct sampled indices `a` (first draw) and `b` (second
draw), the Least Request comparison returns `a` exactly when `a`'s local
counter is strictly smaller, and `b` otherwise; it never returns the index
with the strictly larger counter, and ties go to the second draw `b`. -/
theorem leastRequests_choice (active : List Int) (a b : Nat) (hab : a ≠ b) :
    (active.getD a 0 < active.getD b 0 → LeastRequests.choose active a b = a)
    ∧ (active.getD b 0 ≤ active.getD a 0 → LeastRequests.choose active a b = b)
    ∧ active.getD (LeastRequests.choose active a b) 0 ≤ active.getD a 0
    ∧ active.getD (LeastRequests.choose active a b) 0 ≤ active.getD b 0
    ∧ (active.getD a 0 = active.getD b 0 → LeastRequests.choose active a b = b) := by
  refine ⟨?_, ?_, ?_, ?_, ?_⟩
  · intro hlt
    unfold LeastRequests.choose
    rw [if_pos hlt]
  · intro hle
    unfold LeastRequests.choose
    rw [if_neg (not_lt.mpr hle)]
  · unfold LeastRequests.choose
    split
    next h => exact le_refl _
    next h => exact not_lt.mp h
  · unfold LeastRequests.choose
    split
    next h => exact le_of_lt h
    next h => exact le_refl _
  · intro he
    unfold LeastRequests.choose
    rw [if_neg (by omega)]

/-- Witness for C6 at counters `[2, 5]`, first draw 0, second draw 1. -/
theorem leastRequests_choice_witness :
    (([2, 5] : List Int).getD 0 0 < ([2, 5] : List Int).getD 1 0 →
        LeastRequests.choose [2, 5] 0 1 = 0)
    ∧ (([2, 5] : List Int).getD 1 0 ≤ ([2, 5] : List Int).getD 0 0 →
        LeastRequests.choose [2, 5] 0 1 = 1)
    ∧ ([2, 5] : List Int).getD (LeastRequests.choose [2, 5] 0 1) 0 ≤ ([2, 5] : List Int).getD 0 0
    ∧ ([2, 5] : List Int).getD (LeastRequests.choose [2, 5] 0 1) 0 ≤ ([2, 5] : List Int).getD 1 0
    ∧ (([2, 5] : List Int).getD 0 0 = ([2, 5] : List Int).getD 1 0 →
        LeastRequests.choose [2, 5] 0 1 = 1) :=
  leastRequests_choice [2, 5] 0 1 (by decide)

/-- Claim C7: the RoundRobin cursor starts at 0, each call increments it, then
reduces modulo `k` and returns it; the returned sequence is `(n+1) % k`, is
cyclic with period `k`, and has no repeats within any window of `k` calls. -/
theorem roundRobin_cyclic (k n i j : Nat) (ar : List Int) (g : Rng) (fuel : Nat)
    (hk : 0 < k) (hi : i < k) (hj : j < k) :
    (LoadBalancer.selectUpstreamServer
        { policy := .roundRobin (RoundRobin.state k n), active_requests := ar } k g fuel
      = some (RoundRobin.out k n,
              { policy := .roundRobin (RoundRobin.out k n), active_requests := ar }, g))
    ∧ RoundRobin.out k n = (n + 1) % k
    ∧ RoundRobin.out k (n + k) = RoundRobin.out k n
    ∧ (RoundRobin.out k (n + i) = RoundRobin.out k (n + j) → i = j) := by
  have hstate : ∀ m, RoundRobin.state k m = m % k := by
    intro m
    induction m with
    | zero => simp [RoundRobin.state]
    | succ m ihm => rw [RoundRobin.state, RoundRobin.step, ihm, Nat.mod_add_mod]
  have hout : ∀ m, RoundRobin.out k m = (m + 1) % k := fun m => hstate (m + 1)
  refine ⟨rfl, hout n, ?_, ?_⟩
  · rw [hout, hout]
    have he : n + k + 1 = n + 1 + k := by omega
    rw [he, Nat.add_mod_right]
  · intro he
    rw [hout, hout] at he
    have h1 : n + i + 1 = (n + 1) + i := by omega
    have h2 : n + j + 1 = (n + 1) + j := by omega
    rw [h1, h2] at he
    have hmeq : (n + 1) + i ≡ (n + 1) + j [MOD k] := he
    have hij : i ≡ j [MOD k] := Nat.ModEq.add_left_cancel (Nat.ModEq.refl (n + 1)) hmeq
    have hij2 : i % k = j % k := hij
    rw [Nat.mod_eq_of_lt hi, Nat.mod_eq_of_lt hj] at hij2
    exact hij2

/-- Witness for C7 at `k = 3`: the first returned value is `1 = (0+1) % 3`,
the sequence has period 3, and positions 0 and 2 of a window differ. -/
theorem roundRobin_cyclic_witness :
    (LoadBalancer.selectUpstreamServer
        { policy := .roundRobin (RoundRobin.state 3 0), active_requests := [] } 3 [] 0
      = some (RoundRobin.out 3 0,
              { policy := .roundRobin (RoundRobin.out 3 0), active_requests := [] }, [])
    ∧ RoundRobin.out 3 0 = (0 + 1) % 3
    ∧ RoundRobin.out 3 (0 + 3) = RoundRobin.out 3 0
    ∧ (RoundRobin.out 3 (0 + 0) = RoundRobin.out 3 (0 + 2) → 0 = 2)) :=
  roundRobin_cyclic 3 0 0 2 [] [] 0 (by decide) (by decide) (by decide)

theorem arrivalsAux_draws (P N fuel : Nat) (hP : 0 < P) (hN : 0 < N) :
    ∀ (ps : List ProxyServer) (b : Backend) (g : Rng)
      (ps2 : List ProxyServer) (b2 : Backend) (g2 : Rng),
      frontendArrivalsAux P N fuel ps b g = some (ps2, b2, g2) →
      (∀ p ∈ ps, ∀ lb ∈ p.lb, lb.active_requests.length = N) →
      ∃ (draws : List Nat) (gs : List Rng),
        draws.length = ps.length
        ∧ gs.length = ps.length + 1
        ∧ gs.get? 0 = some g
        ∧ gs.get? ps.length = some g2
        ∧ ps2.length = ps.length
        ∧ (∀ (i : Nat) (gi : Rng), gs.get? i = some gi → i < ps.length →
            draws.get? i = some ((Rng.next gi).1 % P))
        ∧ (∀ d ∈ draws, d < P)
        ∧ (∀ (i : Nat) (gi : Rng) (p p2 : ProxyServer),
            gs.get? i = some gi → ps.get? i = some p → ps2.get? i = some p2 →
            ((Rng.next gi).1 % P = 0 →
              ∃ sel gn, p.onSendRequest N (Rng.next gi).2 fuel = some (p2, sel, gn)
                ∧ gs.get? (i + 1) = some gn
                ∧ p2.outstanding = p.outstanding + 1)
            ∧ ((Rng.next gi).1 % P ≠ 0 →
              p2 = p ∧ gs.get? (i + 1) = some (Rng.next gi).2)) := by
  intro ps
  induction ps with
  | nil =>
    intro b g ps2 b2 g2 h hlen
    cases h
    refine ⟨[], [g], rfl, rfl, rfl, rfl, rfl, ?_, by simp, ?_⟩
    · intro i gi hgi hi
      simp at hi
    · intro i gi p p2 hgi hp
      simp at hp
  | cons p ps ih =>
    intro b g ps2 b2 g2 h hlen
    unfold frontendArrivalsAux at h
    split at h
    next hdraw =>
      split at h
      · exact Option.noConfusion h
      next p2 sel gA hsend =>
        split at h
        · exact Option.noConfusion h
        next ps1 b1 g1 hrec =>
          cases h
          have hsend2 := proxy_send_spec p N _ fuel p2 sel gA hN
            (hlen p (List.mem_cons_self _ _)) hsend
          rcases ih _ _ ps1 b2 g2 hrec (fun q hq => hlen q (List.mem_cons_of_mem _ hq)) with
            ⟨draws, gslist, hdl, hgl, hg0, hglast, hl1, hdp, hdb, hbig⟩
          refine ⟨((Rng.next g).1 % P) :: draws, g :: gslist,
            by simp [hdl], by simp [hgl], rfl, ?_, by simp [hl1], ?_, ?_, ?_⟩
          · show gslist.get? ps.length = some g2
            exact hglast
          · intro i gi hgi hi
            cases i with
            | zero =>
              cases hgi
              rfl
            | succ m =>
              exact hdp m gi hgi (by simp only [List.length_cons] at hi; omega)
          · intro d hd
            rcases List.mem_cons.mp hd with rfl | hd
            · exact Nat.mod_lt _ hP
            · exact hdb d hd
          · intro i gi q q2 hgi hq hq2
            cases i with
            | zero =>
              cases hgi
              cases hq
              cases hq2
              refine ⟨fun _ => ⟨sel, gA, hsend, hg0, hsend2.2.2.2⟩, fun hne => absurd hdraw hne⟩
            | succ m =>
              exact hbig m gi q q2 hgi hq hq2
    next hdraw =>
      split at h
      · exact Option.noConfusion h
      next ps1 b1 g1 hrec =>
        cases h
        rcases ih _ _ ps1 b2 g2 hrec (fun q hq => hlen q (List.mem_cons_of_mem _ hq)) with
          ⟨draws, gslist, hdl, hgl, hg0, hglast, hl1, hdp, hdb, hbig⟩
        refine ⟨((Rng.next g).1 % P) :: draws, g :: gslist,
          by simp [hdl], by simp [hgl], rfl, ?_, by simp [hl1], ?_, ?_, ?_⟩
        · show gslist.get? ps.length = some g2
          exact hglast
        · intro i gi hgi hi
          cases i with
          | zero =>
            cases hgi
            rfl
          | succ m =>
            exact hdp m gi hgi (by simp only [List.length_cons] at hi; omega)
        · intro d hd
          rcases List.mem_cons.mp hd with rfl | hd
          · exact Nat.mod_lt _ hP
          · exact hdb d hd
        · intro i gi q q2 hgi hq hq2
          cases i with
          | zero =>
            cases hgi
            cases hq
            cases hq2
            refine ⟨fun h0 => absurd h0 hdraw, fun _ => ⟨rfl, hg0⟩⟩
          | succ m =>
            exact hbig m gi q q2 hgi hq hq2

/-- Claim C9: during the arrival phase, one value is consumed from the random
stream per proxy, in proxy order: `gs` lists the stream state at each proxy's
check, starting at the phase's input stream and ending at its output stream,
and proxy `i`'s draw is exactly `(Rng.next gs_i).1 % proxyCount`, a value in
`[0, proxyCount)`.  The proxy issues exactly one `sendRequest` if and only if
that draw equals 0: on 0 its new state is the result of one `onSendRequest`
run on the post-draw stream (raising its outstanding count by exactly 1) and
the phase continues on the stream that call returns; on a nonzero draw the
proxy is left completely untouched and the stream advances by only that one
draw.  So a proxy never issues more than one request per tick. -/
theorem arrival_bernoulli (f : Frontend) (b : Backend) (g : Rng) (fuel : Nat)
    (f2 : Frontend) (b2 : Backend) (g2 : Rng)
    (hP : 0 < f.proxies.length) (hN : 0 < b.num_servers)
    (hlen : ∀ p ∈ f.proxies, ∀ lb ∈ p.lb, lb.active_requests.length = b.num_servers)
    (h : f.onReceiveRequest b g fuel = some (f2, b2, g2)) :
    ∃ (draws : List Nat) (gs : List Rng),
      draws.length = f.proxies.length
      ∧ gs.length = f.proxies.length + 1
      ∧ gs.get? 0 = some g
      ∧ gs.get? f.proxies.length = some g2
      ∧ f2.proxies.length = f.proxies.length
      ∧ (∀ (i : Nat) (gi : Rng), gs.get? i = some gi → i < f.proxies.length →
          draws.get? i = some ((Rng.next gi).1 % f.proxies.length))
      ∧ (∀ d ∈ draws, d < f.proxies.length)
      ∧ (∀ (i : Nat) (gi : Rng) (p p2 : ProxyServer),
          gs.get? i = some gi → f.proxies.get? i = some p → f2.proxies.get? i = some p2 →
          ((Rng.next gi).1 % f.proxies.length = 0 →
            ∃ sel gn, p.onSendRequest b.num_servers (Rng.next gi).2 fuel = some (p2, sel, gn)
              ∧ gs.get? (i + 1) = some gn
              ∧ p2.outstanding = p.outstanding + 1)
          ∧ ((Rng.next gi).1 % f.proxies.length ≠ 0 →
            p2 = p ∧ gs.get? (i + 1) = some (Rng.next gi).2)) := by
  unfold Frontend.onReceiveRequest at h
  split at h
  · exact Option.noConfusion h
  next ps2 bb gg hAux =>
    cases h
    exact arrivalsAux_draws f.proxies.length b.num_servers fuel hP hN f.proxies b g
      ps2 b2 g2 hAux hlen

/-- Witness for C9: one proxy, one server, entropy `[0]`: the single draw is
`0 % 1 = 0` and the proxy sends exactly one request. -/
theorem arrival_bernoulli_witness :
    ∃ (draws : List Nat) (gs : List Rng),
      draws.length = c9Frontend.proxies.length
      ∧ gs.length = c9Frontend.proxies.length + 1
      ∧ gs.get? 0 = some [0]
      ∧ gs.get? c9Frontend.proxies.length = some c9Result.2.2
      ∧ c9Result.1.proxies.length = c9Frontend.proxies.length
      ∧ (∀ (i : Nat) (gi : Rng), gs.get? i = some gi → i < c9Frontend.proxies.length →
          draws.get? i = some ((Rng.next gi).1 % c9Frontend.proxies.length))
      ∧ (∀ d ∈ draws, d < c9Frontend.proxies.length)
      ∧ (∀ (i : Nat) (gi : Rng) (p p2 : ProxyServer),
          gs.get? i = some gi → c9Frontend.proxies.get? i = some p →
          c9Result.1.proxies.get? i = some p2 →
          ((Rng.next gi).1 % c9Frontend.proxies.length = 0 →
            ∃ sel gn, p.onSendRequest (Backend.mk0 1).num_servers (Rng.next gi).2 1
                = some (p2, sel, gn)
              ∧ gs.get? (i + 1) = some gn
              ∧ p2.outstanding = p.outstanding + 1)
          ∧ ((Rng.next gi).1 % c9Frontend.proxies.length ≠ 0 →
            p2 = p ∧ gs.get? (i + 1) = some (Rng.next gi).2)) :=
  arrival_bernoulli c9Frontend (Backend.mk0 1) [0] 1 c9Result.1 c9Result.2.1 c9Result.2.2
    (by decide) (by decide) (by decide) (by rfl)

theorem rng_next_fst (g : Rng) : (Rng.next g).1 = g.getD 0 0 := by
  cases g <;> rfl

theorem rng_next_snd_getD (g : Rng) (k : Nat) :
    (Rng.next g).2.getD k 0 = g.getD (k + 1) 0 := by
  cases g <;> rfl

theorem drawDifferent_terminates (server1 n : Nat) (hn : 0 < n) :
    ∀ (fuel k : Nat) (g : Rng), k < fuel → (g.getD k 0) % n ≠ server1 →
      ∃ r g2, drawDifferent server1 n g fuel = some (r, g2) ∧ r ≠ server1 ∧ r < n := by
  intro fuel
  induction fuel with
  | zero =>
    intro k g hk
    omega
  | succ m ih =>
    intro k g hk hdiff
    rw [drawDifferent]
    by_cases h0 : (Rng.next g).1 % n = server1
    · rw [if_pos h0]
      cases k with
      | zero =>
        exfalso
        apply hdiff
        rw [← rng_next_fst]
        exact h0
      | succ k =>
        apply ih k (Rng.next g).2 (by omega)
        rw [rng_next_snd_getD]
        exact hdiff
    · rw [if_neg h0]
      exact ⟨_, _, rfl, h0, Nat.mod_lt _ hn⟩

theorem drawDifferent_one_none : ∀ (fuel : Nat) (g : Rng), drawDifferent 0 1 g fuel = none := by
  intro fuel
  induction fuel with
  | zero => intro g; rfl
  | succ m ih =>
    intro g
    rw [drawDifferent, if_pos (Nat.mod_one _)]
    exact ih _

/-- Claim C10: the rejection loop drawing the second index terminates for
`candidateCount ≥ 2` as soon as the random stream yields a residue different
from the first index (and such residues always exist for `n ≥ 2`); with
`candidateCount = 1` every draw reduces to `0 = server1`, so the loop can
never exit, for any stream and any fuel. -/
theorem powerOfTwo_rejection_termination (n server1 k fuel f0 : Nat) (g g0 : Rng)
    (h2 : 2 ≤ n) (hk : k < fuel) (hdiff : (g.getD k 0) % n ≠ server1) :
    (∃ r g2, drawDifferent server1 n g fuel = some (r, g2) ∧ r ≠ server1 ∧ r < n)
    ∧ (∃ v : Nat, v % n ≠ server1)
    ∧ drawDifferent 0 1 g0 f0 = none := by
  refine ⟨drawDifferent_terminates server1 n (by omega) fuel k g hk hdiff, ?_,
    drawDifferent_one_none f0 g0⟩
  by_cases hs : server1 = 0
  · refine ⟨1, ?_⟩
    rw [Nat.mod_eq_of_lt (by omega)]
    omega
  · refine ⟨0, ?_⟩
    rw [Nat.zero_mod]
    omega

/-- Witness for C10 with 2 candidates, first index 0, stream `[1]`. -/
theorem powerOfTwo_rejection_termination_witness :
    (∃ r g2, drawDifferent 0 2 [1] 1 = some (r, g2) ∧ r ≠ 0 ∧ r < 2)
    ∧ (∃ v : Nat, v % 2 ≠ 0)
    ∧ drawDifferent 0 1 [0, 0] 3 = none :=
  powerOfTwo_rejection_termination 2 0 0 1 3 [1] [0, 0] (by decide) (by decide) (by decide)

/-- Claim C1 is a code bug: with 999 recorded latencies and request count 999
the truncated offset is 0, but the code's index `size - 0 = size` is not
clamped to `[0, size-1]`: it is out of bounds (the claim says the maximum
recorded latency is returned; the code has no defined result there). -/
theorem tailLatency_unclamped (l : List Int) (t : Int) (h : l.length = 999) :
    (999 : Nat) / 1000 = 0
    ∧ tailIndex l.length 999 = l.length
    ∧ ¬ tailIndex l.length 999 < l.length
    ∧ latencyTailRead l 999 = none
    ∧ LBSimulator.latency l 999 t = none := by
  have hidx : tailIndex l.length 999 = l.length := by simp [tailIndex]
  have hread : latencyTailRead l 999 = none := by
    unfold latencyTailRead sortLatencies
    apply List.get?_eq_none.mpr
    rw [List.length_mergeSort, hidx]
  refine ⟨rfl, hidx, by omega, hread, ?_⟩
  unfold LBSimulator.latency
  rw [hread]

/-- Witness for C1 at a concrete list of 999 recorded latencies. -/
theorem tailLatency_unclamped_witness :
    (List.replicate 999 (5 : Int)).length = 999
    ∧ ((999 : Nat) / 1000 = 0
       ∧ tailIndex (List.replicate 999 (5 : Int)).length 999
           = (List.replicate 999 (5 : Int)).length
       ∧ ¬ tailIndex (List.replicate 999 (5 : Int)).length 999
           < (List.replicate 999 (5 : Int)).length
       ∧ latencyTailRead (List.replicate 999 (5 : Int)) 999 = none
       ∧ LBSimulator.latency (List.replicate 999 (5 : Int)) 999 0 = none) :=
  ⟨by rw [List.length_replicate],
   tailLatency_unclamped (List.replicate 999 (5 : Int)) 0 (by rw [List.length_replicate])⟩

/-- Claim C3 is a code bug: `latency()` performs the tail read and the division
`total_latency / request_cnt` unconditionally; at request count 0 there is no
"no data" result, only undefined behaviour.  For positive request counts the
mean is the integer quotient truncated toward zero. -/
theorem meanLatency_no_guard (total : Int) (l : List Int) (cnt : Nat) (hcnt : 0 < cnt) :
    cppDivInt total 0 = none
    ∧ LBSimulator.latency l 0 total = none
    ∧ cppDivInt total cnt = some (total.tdiv cnt) := by
  refine ⟨rfl, ?_, ?_⟩
  · have hread : latencyTailRead l 0 = none := by
      unfold latencyTailRead sortLatencies
      apply List.get?_eq_none.mpr
      rw [List.length_mergeSort]
      simp [tailIndex]
    unfold LBSimulator.latency
    rw [hread]
  · unfold cppDivInt
    rw [if_neg (by exact_mod_cast hcnt.ne')]

/-- Witness for C3: the division is undefined at count 0, and `-7 / 2`
truncates toward zero for count 2. -/
theorem meanLatency_no_guard_witness :
    cppDivInt (-7) 0 = none
    ∧ LBSimulator.latency [] 0 (-7) = none
    ∧ cppDivInt (-7) ((2 : Nat) : Int) = some ((-7 : Int).tdiv ((2 : Nat) : Int)) :=
  meanLatency_no_guard (-7) [] 2 (by decide)

/-- Claim C2 is a code bug: the constructor's `if`/`else if` chain has no
final `else`, so an unrecognized policy name silently constructs a proxy with
a null policy, and the first `onSendRequest` dereferences it; there is no
construction-time configuration error. -/
theorem unknown_policy_not_fail_fast (lb_policy : String) (num_servers pid fuel : Nat)
    (g : Rng) (h1 : lb_policy ≠ "Round Robin") (h2 : lb_policy ≠ "Random Select")
    (h3 : lb_policy ≠ "Least Request") :
    (mkProxyServer num_servers lb_policy pid).lb = none
    ∧ (mkProxyServer num_servers lb_policy pid).onSendRequest num_servers g fuel = none := by
  have hnone : mkLoadBalancer lb_policy num_servers = none := by
    unfold mkLoadBalancer
    rw [if_neg h1, if_neg h2, if_neg h3]
  have hlb : (mkProxyServer num_servers lb_policy pid).lb = none := by
    simpa [mkProxyServer] using hnone
  refine ⟨hlb, ?_⟩
  unfold ProxyServer.onSendRequest
  rw [hlb]

/-- Witness for C2 at the unrecognized name `"Weighted"`. -/
theorem unknown_policy_not_fail_fast_witness :
    (mkProxyServer 3 "Weighted" 0).lb = none
    ∧ (mkProxyServer 3 "Weighted" 0).onSendRequest 3 [] 5 = none :=
  unknown_policy_not_fail_fast "Weighted" 3 0 5 [] (by decide) (by decide) (by decide)

end LBSim
